import Mathlib

/-!
Verification development for the inter-service-sdk repository.

The repository ships a service-to-service HTTP client whose core layers are
an envelope cipher (ECDH key agreement + correlation-id-bound KDF + an
authenticated stream cipher), a URL builder, a retrying request dispatcher,
and a build/publish script.  The runtime core modules themselves are not in
the source tree excerpt (only the package init, the examples and the build
script are), so the cipher, URL builder and dispatcher are modelled from the
specification; the build-script functions are translated directly from
src/build_and_publish.py.

Bytes are modelled as natural numbers, byte strings as lists of naturals,
and machine randomness (ephemeral scalars, nonces) is passed explicitly.
-/

namespace InterServiceSdk

/-! ## Error taxonomy

Modelled from the spec: inter_service_sdk/exceptions.py is not in src/; the
spec section 7 gives the taxonomy URLBuildError, EncryptionError,
AuthenticationError, RequestError. -/

/-- Modelled from the spec: the typed failure kinds of the SDK
(spec section 7, Error handling design). -/
inductive SdkError where
  | urlBuildError (msg : String)
  | encryptionError (msg : String)
  | authenticationError (status : Nat)
  | requestError (status : Option Nat) (msg : String)
deriving DecidableEq

/-! ## Envelope cipher

Modelled from the spec: inter_service_sdk/crypto_utils.py is not in src/.
Spec section 4.2: encryption generates an ephemeral EC key pair, performs
ECDH with the peer public key, derives a 256-bit symmetric key via a KDF
bound to the correlation id, encrypts with a stream-and-tag authenticated
cipher (ciphertext length = plaintext length, fixed-size tag), and packs
an envelope of ephemeral public point, nonce, ciphertext and tag.
Decryption mirrors this and fails closed with EncryptionError on any tag
mismatch, with a message that does not distinguish the cause.

The elliptic-curve group is modelled as the additive group of integers
modulo the P-256 group order with an abstract base point; scalar
multiplication is multiplication mod the order, which preserves exactly the
commutativity used by Diffie-Hellman.  The KDF and the authentication tag
are modelled as injective pairing functions, reflecting the ideal
collision-free primitives the spec assumes (a decryptor with a different
derived key, or a tampered ciphertext, always fails tag verification). -/

/-- Modelled from the spec: the order of the P-256 group (the single
supported curve). -/
def p256Order : Nat := 115792089210356248762697446949407573529996955224135760342422259061068512044369

/-- Modelled from the spec: abstract base point of the curve group. -/
def basePoint : Nat := 3

/-- Modelled from the spec: EC scalar multiplication, in the additive model
of the curve group. -/
def scalarMult (k point : Nat) : Nat := (k * point) % p256Order

/-- Modelled from the spec: the public point of a private scalar. -/
def pubkeyOf (sk : Nat) : Nat := scalarMult sk basePoint

/-- Modelled from the spec: the ECDH shared secret between an own private
scalar and a peer public point (the x-coordinate of the product point). -/
def ecdhShared (sk peerPub : Nat) : Nat := scalarMult sk peerPub

/-- Injective encoding of a byte list into a natural number. -/
def encodeList : List Nat → Nat
  | [] => 0
  | n :: ns => Nat.pair n (encodeList ns) + 1

/-- Injective encoding of a string (via its character codes). -/
def strEncode (s : String) : Nat := encodeList (s.data.map Char.toNat)

/-- Modelled from the spec: the KDF deriving the symmetric key from the
shared secret with the correlation id bound in as context. -/
def kdfKey (shared : Nat) (correlationId : String) : Nat :=
  Nat.pair shared (strEncode correlationId)

/-- Modelled from the spec: keystream block i of the stream cipher under a
key and nonce. -/
def keystream (key nonce i : Nat) : Nat := Nat.pair key (Nat.pair nonce i)

/-- Modelled from the spec: the stream cipher core; XORs each byte with the
keystream. Applying it twice with the same key and nonce is the identity,
and ciphertext length equals plaintext length. -/
def ctrCrypt (key nonce : Nat) : Nat → List Nat → List Nat
  | _, [] => []
  | i, b :: bs => (b ^^^ keystream key nonce i) :: ctrCrypt key nonce (i + 1) bs

/-- Modelled from the spec: the authentication tag over the ciphertext,
bound to the symmetric key and nonce (ideal MAC, collision-free). -/
def authTag (key nonce : Nat) (ciphertext : List Nat) : Nat :=
  Nat.pair key (Nat.pair nonce (encodeList ciphertext))

/-- Modelled from the spec: the wire envelope holding an encrypted payload
(ephemeral public point, nonce, ciphertext, tag). -/
structure Envelope where
  ephemeralPub : Nat
  nonce : Nat
  ciphertext : List Nat
  tag : Nat
deriving DecidableEq

/-- Modelled from the spec: encrypt of the EnvelopeCipher (spec 4.2).
The fresh ephemeral scalar and the fresh nonce are passed explicitly in
place of the random generator. -/
def encryptEnvelope (plaintext : List Nat) (correlationId : String)
    (peerPub : Nat) (ephSk : Nat) (nonce : Nat) : Envelope :=
  let shared := ecdhShared ephSk peerPub
  let key := kdfKey shared correlationId
  let ct := ctrCrypt key nonce 0 plaintext
  { ephemeralPub := pubkeyOf ephSk
    nonce := nonce
    ciphertext := ct
    tag := authTag key nonce ct }

/-- Modelled from the spec: decrypt of the EnvelopeCipher (spec 4.2).
Recomputes the shared secret from the own private key and the ephemeral
public point of the envelope, re-derives the symmetric key with the same
correlation-id-bound KDF, verifies the tag and decrypts; fails closed with
a cause-hiding EncryptionError message on tag mismatch. -/
def decryptEnvelope (env : Envelope) (correlationId : String)
    (ownSk : Nat) : Except SdkError (List Nat) :=
  let shared := ecdhShared ownSk env.ephemeralPub
  let key := kdfKey shared correlationId
  if authTag key env.nonce env.ciphertext = env.tag then
    .ok (ctrCrypt key env.nonce 0 env.ciphertext)
  else
    .error (.encryptionError "Decryption failed")

/-- Flip bit i of byte j of a byte list (tamper model for C3). -/
def flipBit (bytes : List Nat) (j i : Nat) : List Nat :=
  bytes.set j ((bytes.getD j 0) ^^^ 2 ^ i)

/-! ### Cipher lemmas -/

/-- Diffie-Hellman commutativity: both sides derive the same shared secret. -/
theorem ecdh_comm (a b : Nat) :
    ecdhShared a (pubkeyOf b) = ecdhShared b (pubkeyOf a) := by
  simp only [ecdhShared, pubkeyOf, scalarMult]
  rw [Nat.mul_mod_mod, Nat.mul_mod_mod, ← Nat.mul_assoc, ← Nat.mul_assoc,
    Nat.mul_comm a b]

/-- The stream cipher is an involution under a fixed key and nonce. -/
theorem ctr_involutive (key nonce : Nat) (bs : List Nat) :
    ∀ i, ctrCrypt key nonce i (ctrCrypt key nonce i bs) = bs := by
  induction bs with
  | nil => intro i; rfl
  | cons b bs ih =>
    intro i
    simp only [ctrCrypt]
    rw [Nat.xor_assoc, Nat.xor_self, Nat.xor_zero, ih]

/-- Ciphertext length equals plaintext length. -/
theorem ctr_length (key nonce : Nat) (bs : List Nat) :
    ∀ i, (ctrCrypt key nonce i bs).length = bs.length := by
  induction bs with
  | nil => intro i; rfl
  | cons b bs ih => intro i; simp [ctrCrypt, ih]

theorem encodeList_injective : Function.Injective encodeList := by
  intro xs
  induction xs with
  | nil =>
    intro ys h
    cases ys with
    | nil => rfl
    | cons y ys => simp [encodeList] at h
  | cons x xs ih =>
    intro ys h
    cases ys with
    | nil => simp [encodeList] at h
    | cons y ys =>
      simp only [encodeList, Nat.add_right_cancel_iff] at h
      obtain ⟨h1, h2⟩ := Nat.pair_eq_pair.mp h
      rw [h1, ih h2]

theorem char_toNat_injective : Function.Injective Char.toNat := by
  intro c d h
  rcases c with ⟨⟨cv, hc⟩, pc⟩
  rcases d with ⟨⟨dv, hd⟩, pd⟩
  simp [Char.toNat, UInt32.toNat] at h
  subst h
  rfl

theorem strEncode_injective : Function.Injective strEncode := by
  intro s t h
  have h2 := encodeList_injective h
  have h3 := List.map_injective_iff.mpr char_toNat_injective h2
  cases s; cases t
  exact congrArg String.mk h3

theorem xor_pow_ne (x i : Nat) : x ^^^ 2 ^ i ≠ x := by
  intro h
  have hz : x ^^^ (x ^^^ 2 ^ i) = x ^^^ x := by rw [h]
  rw [← Nat.xor_assoc, Nat.xor_self, Nat.zero_xor] at hz
  exact (by positivity : (0:Nat) < 2 ^ i).ne' hz

theorem getD_set_self : ∀ (l : List Nat) (j v : Nat), j < l.length →
    (l.set j v).getD j 0 = v := by
  intro l
  induction l with
  | nil => intro j v h; simp at h
  | cons a l ih =>
    intro j v h
    cases j with
    | zero => rfl
    | succ j =>
      simp only [List.set, List.getD, List.get?]
      exact ih j v (by simpa using h)

theorem flipBit_ne (l : List Nat) (j i : Nat) (h : j < l.length) :
    flipBit l j i ≠ l := by
  intro heq
  have h1 : (flipBit l j i).getD j 0 = l.getD j 0 ^^^ 2 ^ i :=
    getD_set_self l j _ h
  rw [heq] at h1
  exact xor_pow_ne _ _ h1.symm

/-! ### Claims C1, C2, C3 -/

/-- C1: for every plaintext byte sequence, every valid key pair on the
supported curve, and every correlation id, decrypting the envelope produced
by encrypt with the matching correlation id and private key returns exactly
the plaintext.  The valid key pair is (skB, pubkeyOf skB); the ephemeral
scalar and nonce quantify over all randomness. -/
theorem C1_roundtrip (pt : List Nat) (cid : String) (skB ephSk nonce : Nat) :
    decryptEnvelope (encryptEnvelope pt cid (pubkeyOf skB) ephSk nonce) cid skB
      = .ok pt := by
  simp only [encryptEnvelope, decryptEnvelope, ecdh_comm skB ephSk, if_true]
  rw [ctr_involutive]

/-- C2: decrypting an envelope with any correlation id different from the
one it was encrypted under fails with EncryptionError even when the private
key is correct, and never returns a plaintext. -/
theorem C2_wrong_correlation (pt : List Nat) (cid cid' : String)
    (skB ephSk nonce : Nat) (h : cid' ≠ cid) :
    decryptEnvelope (encryptEnvelope pt cid (pubkeyOf skB) ephSk nonce) cid' skB
      = .error (.encryptionError "Decryption failed") := by
  simp only [encryptEnvelope, decryptEnvelope, ecdh_comm skB ephSk]
  split
  next hcond =>
    exfalso
    simp only [authTag, kdfKey] at hcond
    have h1 := (Nat.pair_eq_pair.mp hcond).1
    have h2 := (Nat.pair_eq_pair.mp h1).2
    exact h (strEncode_injective h2)
  next => rfl

/-- Witness for C2 at a concrete input. -/
theorem C2_wrong_correlation_witness :
    ("other" : String) ≠ "session-1" ∧
    decryptEnvelope (encryptEnvelope [1, 2, 3] "session-1" (pubkeyOf 5) 7 11)
      "other" 5 = .error (.encryptionError "Decryption failed") :=
  ⟨by decide, C2_wrong_correlation [1, 2, 3] "session-1" "other" 5 7 11 (by decide)⟩

/-- C3: flipping any single bit of the ciphertext field or of the tag field
of an envelope obtained from a successful encryption makes decryption with
otherwise matching keys and correlation id fail with EncryptionError. -/
theorem C3_bitflip (pt : List Nat) (cid : String) (skB ephSk nonce j i : Nat) :
    (j < pt.length →
      decryptEnvelope
        { encryptEnvelope pt cid (pubkeyOf skB) ephSk nonce with
          ciphertext :=
            flipBit (encryptEnvelope pt cid (pubkeyOf skB) ephSk nonce).ciphertext j i }
        cid skB = .error (.encryptionError "Decryption failed"))
    ∧ decryptEnvelope
        { encryptEnvelope pt cid (pubkeyOf skB) ephSk nonce with
          tag := (encryptEnvelope pt cid (pubkeyOf skB) ephSk nonce).tag ^^^ 2 ^ i }
        cid skB = .error (.encryptionError "Decryption failed") := by
  constructor
  · intro hj
    simp only [encryptEnvelope, decryptEnvelope, ecdh_comm skB ephSk]
    split
    next hcond =>
      exfalso
      simp only [authTag] at hcond
      have h1 := (Nat.pair_eq_pair.mp (Nat.pair_eq_pair.mp hcond).2).2
      have h2 := encodeList_injective h1
      have hlen : j < (ctrCrypt (kdfKey (ecdhShared ephSk (pubkeyOf skB)) cid) nonce 0 pt).length := by
        rw [ctr_length]; exact hj
      exact flipBit_ne _ j i hlen h2
    next => rfl
  · simp only [encryptEnvelope, decryptEnvelope, ecdh_comm skB ephSk]
    split
    next hcond =>
      exfalso
      exact xor_pow_ne _ i hcond.symm
    next => rfl

/-- Witness for C3 at a concrete input. -/
theorem C3_bitflip_witness :
    (0 < ([1, 2, 3] : List Nat).length ∧
      decryptEnvelope
        { encryptEnvelope [1, 2, 3] "session-1" (pubkeyOf 5) 7 11 with
          ciphertext :=
            flipBit (encryptEnvelope [1, 2, 3] "session-1" (pubkeyOf 5) 7 11).ciphertext 0 4 }
        "session-1" 5 = .error (.encryptionError "Decryption failed"))
    ∧ decryptEnvelope
        { encryptEnvelope [1, 2, 3] "session-1" (pubkeyOf 5) 7 11 with
          tag := (encryptEnvelope [1, 2, 3] "session-1" (pubkeyOf 5) 7 11).tag ^^^ 2 ^ 4 }
        "session-1" 5 = .error (.encryptionError "Decryption failed") :=
  ⟨⟨by decide, (C3_bitflip [1, 2, 3] "session-1" 5 7 11 0 4).1 (by decide)⟩,
    (C3_bitflip [1, 2, 3] "session-1" 5 7 11 0 4).2⟩

/-! ## URL builder

Modelled from the spec: inter_service_sdk/url_builder logic is not in src/.
Spec section 4.3: endpoint templates contain brace-delimited placeholders;
every placeholder must have an entry in the path parameters or the call
fails with URLBuildError naming the missing parameter; a key appearing
twice in the template also fails with URLBuildError; values are converted
to string form and percent-encoded; query parameters are appended in
order; exactly one slash separates base URL, prefix and endpoint. -/

/-- Error cases of URL building (spec 4.3). -/
inductive UrlError where
  | missingParam (name : String)
  | duplicateParam (name : String)
deriving DecidableEq

/-- The character of a decimal digit. -/
def digitChar (d : Nat) : Char := Char.ofNat (48 + d)

/-- Fueled canonical decimal rendering of a natural number. -/
def natCharsAux : Nat → Nat → List Char
  | 0, _ => []
  | fuel + 1, n =>
    if n < 10 then [digitChar n]
    else natCharsAux fuel (n / 10) ++ [digitChar (n % 10)]

/-- Canonical decimal rendering of a natural number. -/
def natChars (n : Nat) : List Char := natCharsAux (n + 1) n

/-- Modelled from the spec: a path or query parameter value (number or
string), converted to string form before substitution. -/
inductive ParamValue where
  | nat (n : Nat)
  | str (s : String)
deriving DecidableEq

/-- String form of a parameter value. -/
def ParamValue.render : ParamValue → List Char
  | .nat n => natChars n
  | .str s => s.data

/-- Characters that percent-encoding leaves unchanged. -/
def isUnreservedChar (c : Char) : Bool :=
  c.isAlphanum || c = '-' || c = '.' || c = '_' || c = '~'

/-- Hexadecimal digit character. -/
def hexDigitChar (n : Nat) : Char :=
  if n < 10 then Char.ofNat (48 + n) else Char.ofNat (55 + n)

/-- Percent-encode one character. -/
def percentEncodeChar (c : Char) : List Char :=
  if isUnreservedChar c then [c]
  else ['%', hexDigitChar (c.toNat / 16 % 16), hexDigitChar (c.toNat % 16)]

/-- Modelled from the spec: percent-encoding of reserved characters. -/
def percentEncode (cs : List Char) : List Char :=
  cs.foldr (fun c acc => percentEncodeChar c ++ acc) []

/-- Look up a parameter by name. -/
def lookupParam (name : String) (params : List (String × ParamValue)) :
    Option ParamValue :=
  (params.find? (fun p => p.1 == name)).map Prod.snd

/-- Scan a template and collect its placeholder names; the second argument
holds the partially read name while inside braces. -/
def extractPlaceholders : List Char → Option (List Char) → List String
  | [], _ => []
  | c :: cs, none =>
    if c = '\x7b' then extractPlaceholders cs (some [])
    else extractPlaceholders cs none
  | c :: cs, some acc =>
    if c = '\x7d' then String.mk acc.reverse :: extractPlaceholders cs none
    else extractPlaceholders cs (some (c :: acc))

/-- The placeholder names of an endpoint template. -/
def placeholdersOf (template : String) : List String :=
  extractPlaceholders template.data none

/-- Substitute placeholder names by their rendered, percent-encoded values. -/
def substPlaceholders (params : List (String × ParamValue)) :
    List Char → Option (List Char) → List Char
  | [], _ => []
  | c :: cs, none =>
    if c = '\x7b' then substPlaceholders params cs (some [])
    else c :: substPlaceholders params cs none
  | c :: cs, some acc =>
    if c = '\x7d' then
      (match lookupParam (String.mk acc.reverse) params with
       | some v => percentEncode v.render
       | none => []) ++ substPlaceholders params cs none
    else substPlaceholders params cs (some (c :: acc))

/-- First name occurring twice in a list, if any. -/
def firstDup : List String → Option String
  | [] => none
  | x :: xs => if xs.contains x then some x else firstDup xs

def dropLeadingSlashes (cs : List Char) : List Char := cs.dropWhile (· = '/')

def dropTrailingSlashes (cs : List Char) : List Char :=
  (cs.reverse.dropWhile (· = '/')).reverse

/-- Render one query parameter as key=value. -/
def queryItem (p : String × ParamValue) : List Char :=
  percentEncode p.1.data ++ '=' :: percentEncode p.2.render

/-- Render the query parameters in the order supplied. -/
def renderQueryItems : List (String × ParamValue) → List Char
  | [] => []
  | [p] => queryItem p
  | p :: ps => queryItem p ++ '&' :: renderQueryItems ps

/-- The query string, empty when there are no query parameters. -/
def renderQuery (qs : List (String × ParamValue)) : List Char :=
  if qs.isEmpty then [] else '?' :: renderQueryItems qs

/-- Modelled from the spec: UrlBuilder.build (spec 4.3).  Checks that every
placeholder has a path parameter (failing with the missing name), rejects
duplicated placeholders, substitutes values and joins base URL, prefix and
endpoint with exactly one slash between segments. -/
def buildUrl (base pre template : String)
    (pathParams queryParams : List (String × ParamValue)) :
    Except UrlError String :=
  let phs := placeholdersOf template
  match phs.find? (fun n => (lookupParam n pathParams).isNone) with
  | some m => .error (.missingParam m)
  | none =>
    match firstDup phs with
    | some d => .error (.duplicateParam d)
    | none =>
      let core := substPlaceholders pathParams template.data none
      let preT := dropTrailingSlashes (dropLeadingSlashes pre.data)
      let baseT := dropTrailingSlashes base.data
      let pathT := dropLeadingSlashes core
      let url :=
        if preT.isEmpty then baseT ++ '/' :: pathT
        else baseT ++ '/' :: preT ++ '/' :: pathT
      .ok (String.mk (url ++ renderQuery queryParams))

/-! ### Claim C5 -/

/-- C5: the template users/\x7buser_id\x7d with path parameter user_id 123,
prefix /api/v1 and base https://x.test builds exactly
https://x.test/api/v1/users/123; and any template containing a placeholder
with no corresponding path-parameter entry fails with URLBuildError naming
a missing parameter. -/
theorem C5_url_building (base pre template : String)
    (pathParams queryParams : List (String × ParamValue)) (name : String)
    (hmem : name ∈ placeholdersOf template)
    (hmiss : lookupParam name pathParams = none) :
    (buildUrl "https://x.test" "/api/v1" "users/{user_id}"
        [("user_id", .nat 123)] [] = .ok "https://x.test/api/v1/users/123")
    ∧ ∃ m, buildUrl base pre template pathParams queryParams
          = .error (.missingParam m)
        ∧ m ∈ placeholdersOf template ∧ lookupParam m pathParams = none := by
  refine ⟨by rfl, ?_⟩
  have hex : ∃ x ∈ placeholdersOf template,
      (lookupParam x pathParams).isNone = true :=
    ⟨name, hmem, by simp [hmiss]⟩
  have hsome := List.find?_isSome.mpr hex
  obtain ⟨m, hfind⟩ := Option.isSome_iff_exists.mp hsome
  refine ⟨m, ?_, List.mem_of_find?_eq_some hfind, ?_⟩
  · simp only [buildUrl, hfind]
  · have := List.find?_some hfind
    simpa using this

/-- Witness for C5 at a concrete input. -/
theorem C5_url_building_witness :
    ("user_id" ∈ placeholdersOf "users/{user_id}"
      ∧ lookupParam "user_id" [] = none)
    ∧ ∃ m, buildUrl "https://x.test" "/api/v1" "users/{user_id}" [] []
          = .error (.missingParam m)
        ∧ m ∈ placeholdersOf "users/{user_id}" ∧ lookupParam m [] = none :=
  ⟨⟨by decide, by decide⟩,
    (C5_url_building "https://x.test" "/api/v1" "users/{user_id}" [] []
      "user_id" (by decide) (by decide)).2⟩

/-! ## Request dispatcher

Modelled from the spec: inter_service_sdk/client.py is not in src/.
Spec section 4.4: per call, build the URL, encrypt the body when requested
(failing with EncryptionError before any network activity when no peer
public key is configured), then issue the HTTP call through the transport
collaborator with up to retryAttempts total attempts; transport-level
failures and configured retryable statuses are retried; 2xx is success,
401/403 is an authentication failure and is not retried, any other
non-2xx status is a generic request failure carrying the status code.
The transport collaborator is a function from the attempt index and the
request data to an outcome; the second component of the result counts the
transport invocations actually made. -/

/-- Modelled from the spec: outcome of one transport attempt. -/
inductive TransportOutcome where
  | failure (msg : String)
  | response (status : Nat) (body : List Nat)
deriving DecidableEq

/-- Modelled from the spec: the data handed to the transport collaborator,
identical across retries of one logical call. -/
structure RequestData where
  url : String
  body : List Nat
deriving DecidableEq

/-- Modelled from the spec: the uniform result shape returned to callers. -/
inductive CallResult where
  | success (status : Nat) (body : List Nat)
  | failure (e : SdkError)
deriving DecidableEq

/-- Modelled from the spec: immutable client configuration. -/
structure ClientConfig where
  baseUrl : String
  apiKey : String
  apiPrefix : String
  timeout : Nat
  retryAttempts : Nat
  retryableStatus : Nat → Bool
  eccPublicKey : Option Nat
  eccPrivateKey : Option Nat

/-- Deterministic wire serialization of an envelope. -/
def envelopeBytes (env : Envelope) : List Nat :=
  env.ephemeralPub :: env.nonce :: env.tag :: env.ciphertext

/-- Modelled from the spec: the send-with-retries loop (spec 4.4 SENDING and
RETRYING).  The first argument of the pair is the classified result, the
second the number of transport attempts actually made. -/
def attemptLoop (t : Nat → RequestData → TransportOutcome)
    (retryable : Nat → Bool) (rd : RequestData) :
    Nat → Nat → CallResult × Nat
  | 0, _ => (.failure (.requestError none "no attempts"), 0)
  | n + 1, idx =>
    match t idx rd with
    | .failure msg =>
      if n = 0 then (.failure (.requestError none msg), 1)
      else
        let r := attemptLoop t retryable rd n (idx + 1)
        (r.1, r.2 + 1)
    | .response s body =>
      if 200 ≤ s ∧ s ≤ 299 then (.success s body, 1)
      else if s = 401 ∨ s = 403 then (.failure (.authenticationError s), 1)
      else if retryable s ∧ n ≠ 0 then
        let r := attemptLoop t retryable rd n (idx + 1)
        (r.1, r.2 + 1)
      else (.failure (.requestError (some s) "HTTP error"), 1)

/-- Modelled from the spec: one logical call of the RequestDispatcher
(spec 4.4 state machine).  Randomness for encryption is passed explicitly;
the pair also returns the number of transport invocations made. -/
def request (cfg : ClientConfig) (t : Nat → RequestData → TransportOutcome)
    (endpoint : String) (pathParams queryParams : List (String × ParamValue))
    (body : List Nat) (encrypt : Bool) (correlationId : String)
    (ephSk nonce : Nat) : CallResult × Nat :=
  match buildUrl cfg.baseUrl cfg.apiPrefix endpoint pathParams queryParams with
  | .error (.missingParam m) =>
    (.failure (.urlBuildError ("Missing path parameter: " ++ m)), 0)
  | .error (.duplicateParam m) =>
    (.failure (.urlBuildError ("Duplicate path parameter: " ++ m)), 0)
  | .ok url =>
    if encrypt then
      match cfg.eccPublicKey with
      | none => (.failure (.encryptionError "Public key not configured"), 0)
      | some pk =>
        let env := encryptEnvelope body correlationId pk ephSk nonce
        attemptLoop t cfg.retryableStatus ⟨url, envelopeBytes env⟩
          cfg.retryAttempts 0
    else
      attemptLoop t cfg.retryableStatus ⟨url, body⟩ cfg.retryAttempts 0

/-! ### Claim C4 -/

/-- C4: with no peer public key configured, a call with encrypt = true
yields an EncryptionError outcome and makes zero transport invocations. -/
theorem C4_encrypt_without_pubkey (cfg : ClientConfig)
    (t : Nat → RequestData → TransportOutcome) (endpoint : String)
    (pathParams queryParams : List (String × ParamValue)) (body : List Nat)
    (correlationId : String) (ephSk nonce : Nat) (url : String)
    (hkey : cfg.eccPublicKey = none)
    (hurl : buildUrl cfg.baseUrl cfg.apiPrefix endpoint pathParams queryParams
      = .ok url) :
    request cfg t endpoint pathParams queryParams body true correlationId
      ephSk nonce = (.failure (.encryptionError "Public key not configured"), 0) := by
  simp only [request, hurl, hkey, if_true]

/-- Witness for C4 at a concrete input. -/
theorem C4_encrypt_without_pubkey_witness :
    ((⟨"https://x.test", "key", "/api", 30, 3, fun _ => false, none, none⟩ :
        ClientConfig).eccPublicKey = none
      ∧ buildUrl "https://x.test" "/api" "users" [] [] = .ok "https://x.test/api/users")
    ∧ request ⟨"https://x.test", "key", "/api", 30, 3, fun _ => false, none, none⟩
        (fun _ _ => .failure "unreachable") "users" [] [] [1, 2] true "cid" 7 11
      = (.failure (.encryptionError "Public key not configured"), 0) :=
  ⟨⟨rfl, rfl⟩,
    C4_encrypt_without_pubkey
      ⟨"https://x.test", "key", "/api", 30, 3, fun _ => false, none, none⟩
      (fun _ _ => .failure "unreachable") "users" [] [] [1, 2] "cid" 7 11
      "https://x.test/api/users" rfl rfl⟩

/-! ### Claim C6 -/

/-- C6: with a transport failing on the first two attempts and succeeding on
the third, a configuration with retryAttempts 3 yields a success result
after exactly 3 transport attempts, and a configuration with
retryAttempts 2 yields a RequestError result after exactly 2 attempts. -/
theorem C6_retry_policy (cfg3 cfg2 : ClientConfig)
    (t : Nat → RequestData → TransportOutcome) (endpoint : String)
    (pathParams queryParams : List (String × ParamValue)) (body : List Nat)
    (correlationId : String) (ephSk nonce : Nat) (url : String)
    (okBody : List Nat)
    (ha3 : cfg3.retryAttempts = 3) (ha2 : cfg2.retryAttempts = 2)
    (hurl3 : buildUrl cfg3.baseUrl cfg3.apiPrefix endpoint pathParams queryParams
      = .ok url)
    (hurl2 : buildUrl cfg2.baseUrl cfg2.apiPrefix endpoint pathParams queryParams
      = .ok url)
    (h0 : ∀ rd, ∃ m, t 0 rd = .failure m)
    (h1 : ∀ rd, ∃ m, t 1 rd = .failure m)
    (h2 : ∀ rd, t 2 rd = .response 200 okBody) :
    request cfg3 t endpoint pathParams queryParams body false correlationId
        ephSk nonce = (.success 200 okBody, 3)
    ∧ ∃ m, request cfg2 t endpoint pathParams queryParams body false
        correlationId ephSk nonce = (.failure (.requestError none m), 2) := by
  obtain ⟨m0, hm0⟩ := h0 ⟨url, body⟩
  obtain ⟨m1, hm1⟩ := h1 ⟨url, body⟩
  have hr2 := h2 ⟨url, body⟩
  constructor
  · simp only [request, hurl3, ha3]
    simp [attemptLoop, hm0, hm1, hr2]
  · refine ⟨m1, ?_⟩
    simp only [request, hurl2, ha2]
    simp [attemptLoop, hm0, hm1]

/-- Witness for C6 at a concrete input. -/
theorem C6_retry_policy_witness :
    ((⟨"https://x.test", "key", "", 30, 3, fun _ => false, none, none⟩ :
        ClientConfig).retryAttempts = 3
    ∧ (⟨"https://x.test", "key", "", 30, 2, fun _ => false, none, none⟩ :
        ClientConfig).retryAttempts = 2)
    ∧ (request ⟨"https://x.test", "key", "", 30, 3, fun _ => false, none, none⟩
        (fun i _ => if i < 2 then .failure "connection reset" else .response 200 [9])
        "health" [] [] [] false "cid" 7 11 = (.success 200 [9], 3)
      ∧ ∃ m, request ⟨"https://x.test", "key", "", 30, 2, fun _ => false, none, none⟩
        (fun i _ => if i < 2 then .failure "connection reset" else .response 200 [9])
        "health" [] [] [] false "cid" 7 11 = (.failure (.requestError none m), 2)) :=
  ⟨⟨rfl, rfl⟩,
    C6_retry_policy
      ⟨"https://x.test", "key", "", 30, 3, fun _ => false, none, none⟩
      ⟨"https://x.test", "key", "", 30, 2, fun _ => false, none, none⟩
      (fun i _ => if i < 2 then .failure "connection reset" else .response 200 [9])
      "health" [] [] [] "cid" 7 11 "https://x.test/health" [9]
      rfl rfl rfl rfl
      (fun _ => ⟨"connection reset", rfl⟩)
      (fun _ => ⟨"connection reset", rfl⟩)
      (fun _ => rfl)⟩

/-! ### Claim C7 -/

/-- Exhausting the loop on a constant non-2xx, non-auth status yields a
RequestError carrying that status. -/
theorem attemptLoop_const_requestError
    (t : Nat → RequestData → TransportOutcome) (retryable : Nat → Bool)
    (rd : RequestData) (s : Nat) (body : List Nat)
    (hconst : ∀ i, t i rd = .response s body)
    (h2xx : ¬(200 ≤ s ∧ s ≤ 299)) (h401 : s ≠ 401) (h403 : s ≠ 403) :
    ∀ n idx, 1 ≤ n →
      ∃ m, (attemptLoop t retryable rd n idx).1
        = .failure (.requestError (some s) m) := by
  intro n
  induction n with
  | zero => intro idx h; omega
  | succ k ih =>
    intro idx _
    simp only [attemptLoop, hconst idx]
    rw [if_neg h2xx, if_neg (by tauto)]
    by_cases hr : retryable s ∧ k ≠ 0
    · rw [if_pos hr]
      obtain ⟨m, hm⟩ := ih (idx + 1) (by omega)
      exact ⟨m, hm⟩
    · rw [if_neg hr]
      exact ⟨"HTTP error", rfl⟩

/-- C7: a call whose HTTP response has status 401 or 403 is classified as an
AuthenticationError, distinct from the generic RequestError kind, and is not
retried (exactly one attempt is made); any other non-2xx status yields a
RequestError carrying that status code. -/
theorem C7_status_classification
    (t : Nat → RequestData → TransportOutcome) (retryable : Nat → Bool)
    (rd : RequestData) (s : Nat) (body : List Nat) (n : Nat)
    (hconst : ∀ i, t i rd = .response s body) (hn : 1 ≤ n) :
    ((s = 401 ∨ s = 403) →
      attemptLoop t retryable rd n 0
        = (.failure (.authenticationError s), 1))
    ∧ (¬(200 ≤ s ∧ s ≤ 299) → s ≠ 401 → s ≠ 403 →
      ∃ m, (attemptLoop t retryable rd n 0).1
        = .failure (.requestError (some s) m))
    ∧ (∀ st msg, (SdkError.authenticationError s) ≠ .requestError st msg) := by
  refine ⟨?_, ?_, ?_⟩
  · intro hauth
    obtain ⟨k, rfl⟩ : ∃ k, n = k + 1 := ⟨n - 1, by omega⟩
    simp only [attemptLoop, hconst 0]
    rw [if_neg (by omega), if_pos hauth]
  · intro h2xx h401 h403
    exact attemptLoop_const_requestError t retryable rd s body hconst
      h2xx h401 h403 n 0 hn
  · intro st msg h
    exact SdkError.noConfusion h

/-- Witness for C7 at concrete inputs, exercising both the 401 branch and
the generic non-2xx branch. -/
theorem C7_status_classification_witness :
    (attemptLoop (fun _ _ => .response 401 []) (fun _ => false) ⟨"u", []⟩ 3 0
        = (.failure (.authenticationError 401), 1))
    ∧ ∃ m, (attemptLoop (fun _ _ => .response 404 []) (fun _ => false)
        ⟨"u", []⟩ 3 0).1 = .failure (.requestError (some 404) m) :=
  ⟨(C7_status_classification (fun _ _ => .response 401 []) (fun _ => false)
      ⟨"u", []⟩ 401 [] 3 (fun _ => rfl) (by omega)).1 (Or.inl rfl),
    (C7_status_classification (fun _ _ => .response 404 []) (fun _ => false)
      ⟨"u", []⟩ 404 [] 3 (fun _ => rfl) (by omega)).2.1
      (by omega) (by omega) (by omega)⟩

/-! ## Build script: version increment

Translated from src/build_and_publish.py, function increment_version
(lines 46 to 52): split the version string on dots; when there are exactly
three parts, parse each with int() and print major.minor.(patch+1);
otherwise return the string unchanged.  A part that int() rejects raises,
modelled as none.  The modelled subset of int() accepts an optional single
sign followed by a nonempty run of ASCII digits (leading zeros allowed);
printing is canonical decimal. -/

/-- Split a character list on a separator, like str.split. -/
def splitOnChar (sep : Char) : List Char → List (List Char)
  | [] => [[]]
  | c :: cs =>
    if c = sep then [] :: splitOnChar sep cs
    else
      match splitOnChar sep cs with
      | g :: gs => (c :: g) :: gs
      | [] => [[c]]

/-- Value of a list of decimal digit characters. -/
def digitsToNat (ds : List Char) : Nat :=
  ds.foldl (fun a c => 10 * a + (c.toNat - 48)) 0

/-- Parse a nonempty all-digit character list. -/
def pyIntDigits? (ds : List Char) : Option Nat :=
  if ds ≠ [] ∧ ds.all Char.isDigit then some (digitsToNat ds) else none

/-- The int() constructor of Python on a string, restricted to an optional
sign followed by decimal digits; none models the ValueError. -/
def pyInt? (cs : List Char) : Option Int :=
  match cs with
  | [] => none
  | c :: ds =>
    if c = '-' then (pyIntDigits? ds).map (fun n => -(n : Int))
    else if c = '+' then (pyIntDigits? ds).map (fun n => (n : Int))
    else (pyIntDigits? cs).map (fun n => (n : Int))

/-- Canonical decimal rendering of an integer, as an f-string prints it. -/
def intChars (i : Int) : List Char :=
  if i < 0 then '-' :: natChars i.natAbs else natChars i.toNat

/-- increment_version of src/build_and_publish.py; none models the
uncaught ValueError when a part does not parse. -/
def increment_version (version_str : String) : Option String :=
  match splitOnChar '.' version_str.data with
  | [a, b, c] =>
    match pyInt? a, pyInt? b, pyInt? c with
    | some major, some minor, some patch =>
      some (String.mk
        (intChars major ++ '.' :: intChars minor ++ '.' :: intChars (patch + 1)))
    | _, _, _ => none
  | _ => some version_str

/-! ### Number rendering and parsing lemmas -/

theorem natCharsAux_congr : ∀ fuel fuel' n, n < fuel → n < fuel' →
    natCharsAux fuel n = natCharsAux fuel' n := by
  intro fuel
  induction fuel with
  | zero => intro fuel' n h; omega
  | succ f ih =>
    intro fuel' n h h'
    cases fuel' with
    | zero => omega
    | succ f' =>
      simp only [natCharsAux]
      by_cases h10 : n < 10
      · simp [h10]
      · rw [if_neg h10, if_neg h10]
        have hd : n / 10 < n := Nat.div_lt_self (by omega) (by omega)
        rw [ih f' (n / 10) (by omega) (by omega)]

theorem natChars_unfold (n : Nat) (h : ¬ n < 10) :
    natChars n = natChars (n / 10) ++ [digitChar (n % 10)] := by
  have hd : n / 10 < n := Nat.div_lt_self (by omega) (by omega)
  show natCharsAux (n + 1) n = natCharsAux (n / 10 + 1) (n / 10) ++ [digitChar (n % 10)]
  rw [show natCharsAux (n + 1) n
      = if n < 10 then [digitChar n]
        else natCharsAux n (n / 10) ++ [digitChar (n % 10)] from rfl,
    if_neg h]
  congr 1
  exact natCharsAux_congr n (n / 10 + 1) (n / 10) (by omega) (by omega)

theorem natChars_small (n : Nat) (h : n < 10) : natChars n = [digitChar n] := by
  simp [natChars, natCharsAux, h]

theorem digitChar_isDigit (d : Nat) (h : d < 10) :
    (digitChar d).isDigit = true := by
  interval_cases d <;> decide

theorem digitChar_toNat (d : Nat) (h : d < 10) :
    (digitChar d).toNat = 48 + d := by
  interval_cases d <;> decide

theorem natChars_all_digit (n : Nat) :
    (natChars n).all Char.isDigit = true := by
  induction n using Nat.strong_induction_on with
  | _ n ih =>
    by_cases h : n < 10
    · rw [natChars_small n h]
      simp [digitChar_isDigit n h]
    · rw [natChars_unfold n h]
      have hd : n / 10 < n := Nat.div_lt_self (by omega) (by omega)
      simp [List.all_append, ih (n / 10) hd,
        digitChar_isDigit (n % 10) (Nat.mod_lt n (by omega))]

theorem natChars_ne_nil (n : Nat) : natChars n ≠ [] := by
  by_cases h : n < 10
  · rw [natChars_small n h]; simp
  · rw [natChars_unfold n h]; simp

theorem digitsToNat_append (xs : List Char) (d : Char) :
    digitsToNat (xs ++ [d]) = 10 * digitsToNat xs + (d.toNat - 48) := by
  simp [digitsToNat, List.foldl_append]

theorem digitsToNat_natChars (n : Nat) : digitsToNat (natChars n) = n := by
  induction n using Nat.strong_induction_on with
  | _ n ih =>
    by_cases h : n < 10
    · rw [natChars_small n h]
      simp [digitsToNat, digitChar_toNat n h]
    · rw [natChars_unfold n h, digitsToNat_append]
      have hd : n / 10 < n := Nat.div_lt_self (by omega) (by omega)
      rw [ih (n / 10) hd, digitChar_toNat (n % 10) (Nat.mod_lt n (by omega))]
      omega

theorem isDigit_ne_dash (c : Char) (h : c.isDigit = true) : c ≠ '-' := by
  intro he; subst he; simp [Char.isDigit] at h

theorem isDigit_ne_plus (c : Char) (h : c.isDigit = true) : c ≠ '+' := by
  intro he; subst he; simp [Char.isDigit] at h

theorem pyInt?_natChars (n : Nat) : pyInt? (natChars n) = some (n : Int) := by
  have hall := natChars_all_digit n
  have hne := natChars_ne_nil n
  obtain ⟨c, rest, hc⟩ : ∃ c rest, natChars n = c :: rest := by
    cases hn : natChars n with
    | nil => exact absurd hn hne
    | cons c rest => exact ⟨c, rest, rfl⟩
  have hcd : c.isDigit = true := by
    rw [hc] at hall
    simp [List.all_cons] at hall
    exact hall.1
  rw [hc, pyInt?]
  rw [if_neg (isDigit_ne_dash c hcd), if_neg (isDigit_ne_plus c hcd)]
  rw [← hc]
  simp [pyIntDigits?, hne, hall, digitsToNat_natChars n]

theorem natChars_no_dot (n : Nat) : '.' ∉ natChars n := by
  intro hmem
  have hall := natChars_all_digit n
  rw [List.all_eq_true] at hall
  have := hall '.' hmem
  simp [Char.isDigit] at this

theorem splitOnChar_ne_nil (sep : Char) (cs : List Char) :
    splitOnChar sep cs ≠ [] := by
  cases cs with
  | nil => simp [splitOnChar]
  | cons c cs =>
    simp only [splitOnChar]
    by_cases h : c = sep
    · simp [h]
    · rw [if_neg h]
      cases hs : splitOnChar sep cs with
      | nil => simp
      | cons g gs => simp

theorem splitOnChar_append (sep : Char) (A rest : List Char) (hA : sep ∉ A) :
    splitOnChar sep (A ++ sep :: rest) = A :: splitOnChar sep rest := by
  induction A with
  | nil => simp [splitOnChar]
  | cons c A ih =>
    have hc : c ≠ sep := by intro h; exact hA (h ▸ List.mem_cons_self c A)
    have hA' : sep ∉ A := fun h => hA (List.mem_cons_of_mem c h)
    simp only [List.cons_append, splitOnChar, if_neg hc, List.append_eq]
    rw [ih hA']

theorem splitOnChar_no_sep (sep : Char) (A : List Char) (hA : sep ∉ A) :
    splitOnChar sep A = [A] := by
  induction A with
  | nil => rfl
  | cons c A ih =>
    have hc : c ≠ sep := by intro h; exact hA (h ▸ List.mem_cons_self c A)
    have hA' : sep ∉ A := fun h => hA (List.mem_cons_of_mem c h)
    simp only [splitOnChar, if_neg hc, ih hA']

theorem intChars_natCast (n : Nat) : intChars (n : Int) = natChars n := by
  simp [intChars, Int.toNat_natCast]

/-! ### Claim C8 -/

/-- C8 counterexample: the three parts of 01.2.3 all parse as decimal
integers, yet increment_version returns 1.2.4, not 01.2.4 as the claim
requires, because int() normalizes away the leading zero. -/
theorem C8_counterexample :
    (pyInt? "01".data = some 1 ∧ pyInt? "2".data = some 2
      ∧ pyInt? "3".data = some 3)
    ∧ increment_version "01.2.3" ≠ some "01.2.4"
    ∧ increment_version "01.2.3" = some "1.2.4" := by
  refine ⟨⟨by decide, by decide, by decide⟩, by decide, by decide⟩

/-- C8 amended: for three-part versions whose parts are canonical decimal
numerals (digits only, no sign, no leading zeros), increment_version keeps
major and minor and increments the patch; strings whose dot-split does not
have exactly three parts are returned unchanged. -/
theorem C8_increment_version (a b c : Nat) (s : String)
    (hs : (splitOnChar '.' s.data).length ≠ 3) :
    increment_version
        (String.mk (natChars a ++ '.' :: (natChars b ++ '.' :: natChars c)))
      = some (String.mk
          (natChars a ++ '.' :: (natChars b ++ '.' :: natChars (c + 1))))
    ∧ increment_version s = some s := by
  constructor
  · have hsplit : splitOnChar '.'
        (natChars a ++ '.' :: (natChars b ++ '.' :: natChars c))
        = [natChars a, natChars b, natChars c] := by
      rw [splitOnChar_append '.' _ _ (natChars_no_dot a),
        splitOnChar_append '.' _ _ (natChars_no_dot b),
        splitOnChar_no_sep '.' _ (natChars_no_dot c)]
    have hcast : ((c : Int) + 1) = ((c + 1 : Nat) : Int) := by push_cast; ring
    simp only [increment_version, hsplit, pyInt?_natChars, hcast, intChars_natCast]
    simp [List.cons_append, List.append_assoc]
  · simp only [increment_version]
    cases hsp : splitOnChar '.' s.data with
    | nil => exact absurd hsp (splitOnChar_ne_nil '.' s.data)
    | cons g gs =>
      rw [hsp] at hs
      match g, gs, hs with
      | g, [], _ => rfl
      | g, [g2], _ => rfl
      | g, [g2, g3], hs => exact (hs rfl).elim
      | g, g2 :: g3 :: g4 :: gs, _ => rfl

/-- Witness for C8 at concrete inputs. -/
theorem C8_increment_version_witness :
    ((splitOnChar '.' "1.2".data).length ≠ 3)
    ∧ increment_version
        (String.mk (natChars 1 ++ '.' :: (natChars 2 ++ '.' :: natChars 3)))
      = some (String.mk
          (natChars 1 ++ '.' :: (natChars 2 ++ '.' :: natChars (3 + 1))))
    ∧ increment_version "1.2" = some "1.2" :=
  ⟨by decide, (C8_increment_version 1 2 3 "1.2" (by decide)).1,
    (C8_increment_version 1 2 3 "1.2" (by decide)).2⟩

/-! ## Build script: version rewriting in files

Translated from src/build_and_publish.py, function update_version_in_files
(lines 54 to 86): the file content is split on newlines, the first line
starting with a token (version for pyproject.toml, __version__ for the
package init) is replaced by the freshly formatted version line, and the
lines are joined back with newlines.  The pure content transformation is
modelled; reading and writing the files is I/O scaffolding. -/

/-- Join line lists with a separator, like str.join. -/
def joinWith (sep : Char) : List (List Char) → List Char
  | [] => []
  | [l] => l
  | l :: ls => l ++ sep :: joinWith sep ls

/-- Replace the first line satisfying the predicate, like the for-and-break
loop of update_version_in_files. -/
def replaceFirstLine (p : List Char → Bool) (nl : List Char) :
    List (List Char) → List (List Char)
  | [] => []
  | l :: ls => if p l then nl :: ls else l :: replaceFirstLine p nl ls

/-- Index of the first line satisfying the predicate. -/
def firstMatchIdx (p : List Char → Bool) : List (List Char) → Option Nat
  | [] => none
  | l :: ls => if p l then some 0 else (firstMatchIdx p ls).map (· + 1)

/-- The replacement line written into pyproject.toml. -/
def versionLinePy (v : String) : List Char :=
  "version = \"".data ++ v.data ++ ['"']

/-- The replacement line written into the package init file. -/
def initLinePy (v : String) : List Char :=
  "__version__ = \"".data ++ v.data ++ ['"']

/-- Content transformation of update_version_in_files on pyproject.toml. -/
def update_pyproject (new_version content : String) : String :=
  String.mk (joinWith '\n'
    (replaceFirstLine (fun l => List.isPrefixOf "version".data l)
      (versionLinePy new_version) (splitOnChar '\n' content.data)))

/-- Content transformation of update_version_in_files on the package init. -/
def update_init (new_version content : String) : String :=
  String.mk (joinWith '\n'
    (replaceFirstLine (fun l => List.isPrefixOf "__version__".data l)
      (initLinePy new_version) (splitOnChar '\n' content.data)))

/-- The frame property: same number of lines, every line other than the
first match unchanged byte for byte, and the first matching line (when one
exists) replaced by the new line. -/
def FrameOnLines (p : List Char → Bool) (nl : List Char)
    (ls rs : List (List Char)) : Prop :=
  rs.length = ls.length
  ∧ (∀ i, firstMatchIdx p ls ≠ some i → rs.get? i = ls.get? i)
  ∧ (∀ i, firstMatchIdx p ls = some i → rs.get? i = some nl)

/-! ### Line lemmas -/

theorem splitOnChar_join (sep : Char) :
    ∀ ms : List (List Char), ms ≠ [] → (∀ l ∈ ms, sep ∉ l) →
      splitOnChar sep (joinWith sep ms) = ms := by
  intro ms
  induction ms with
  | nil => intro h; exact absurd rfl h
  | cons l ls ih =>
    intro _ hall
    cases ls with
    | nil =>
      simp only [joinWith]
      exact splitOnChar_no_sep sep l (hall l (List.mem_cons_self l []))
    | cons l2 ls2 =>
      show splitOnChar sep (l ++ sep :: joinWith sep (l2 :: ls2)) = _
      rw [splitOnChar_append sep l _ (hall l (List.mem_cons_self l _))]
      rw [ih (by simp) (fun x hx => hall x (List.mem_cons_of_mem l hx))]

theorem splitOnChar_mem_no_sep (sep : Char) :
    ∀ cs : List Char, ∀ l ∈ splitOnChar sep cs, sep ∉ l := by
  intro cs
  induction cs with
  | nil =>
    intro l hl
    simp [splitOnChar] at hl
    simp [hl]
  | cons c cs ih =>
    intro l hl
    simp only [splitOnChar] at hl
    by_cases h : c = sep
    · rw [if_pos h] at hl
      rcases List.mem_cons.mp hl with he | hm
      · simp [he]
      · exact ih l hm
    · rw [if_neg h] at hl
      cases hs : splitOnChar sep cs with
      | nil => exact absurd hs (splitOnChar_ne_nil sep cs)
      | cons g gs =>
        rw [hs] at hl
        rcases List.mem_cons.mp hl with he | hm
        · subst he
          intro hmem
          rcases List.mem_cons.mp hmem with he2 | hm2
          · exact h he2.symm
          · exact ih g (hs ▸ List.mem_cons_self g gs) hm2
        · exact ih l (hs ▸ List.mem_cons_of_mem g hm)

theorem replaceFirstLine_mem (p : List Char → Bool) (nl : List Char) :
    ∀ ls, ∀ l ∈ replaceFirstLine p nl ls, l = nl ∨ l ∈ ls := by
  intro ls
  induction ls with
  | nil => intro l hl; simp [replaceFirstLine] at hl
  | cons x xs ih =>
    intro l hl
    simp only [replaceFirstLine] at hl
    by_cases hp : p x
    · rw [if_pos hp] at hl
      rcases List.mem_cons.mp hl with he | hm
      · exact Or.inl he
      · exact Or.inr (List.mem_cons_of_mem x hm)
    · rw [if_neg hp] at hl
      rcases List.mem_cons.mp hl with he | hm
      · exact Or.inr (he ▸ List.mem_cons_self x xs)
      · rcases ih l hm with h1 | h2
        · exact Or.inl h1
        · exact Or.inr (List.mem_cons_of_mem x h2)

theorem replaceFirstLine_ne_nil (p : List Char → Bool) (nl : List Char)
    (ls : List (List Char)) (h : ls ≠ []) : replaceFirstLine p nl ls ≠ [] := by
  cases ls with
  | nil => exact absurd rfl h
  | cons x xs =>
    simp only [replaceFirstLine]
    by_cases hp : p x
    · simp [hp]
    · simp [hp]

theorem frame_replaceFirstLine (p : List Char → Bool) (nl : List Char) :
    ∀ ls, FrameOnLines p nl ls (replaceFirstLine p nl ls) := by
  intro ls
  induction ls with
  | nil =>
    refine ⟨rfl, fun i _ => rfl, fun i h => ?_⟩
    simp [firstMatchIdx] at h
  | cons x xs ih =>
    obtain ⟨ihlen, ihne, iheq⟩ := ih
    by_cases hp : p x
    · refine ⟨?_, ?_, ?_⟩
      · simp [replaceFirstLine, hp]
      · intro i hi
        simp only [firstMatchIdx, if_pos hp] at hi
        simp only [replaceFirstLine, if_pos hp]
        cases i with
        | zero => exact absurd rfl hi
        | succ j => rfl
      · intro i hi
        simp only [firstMatchIdx, if_pos hp] at hi
        have hz : i = 0 := by cases hi; rfl
        subst hz
        simp [replaceFirstLine, hp]
    · refine ⟨?_, ?_, ?_⟩
      · simp [replaceFirstLine, hp, ihlen]
      · intro i hi
        simp only [firstMatchIdx, if_neg hp] at hi
        simp only [replaceFirstLine, if_neg hp]
        cases i with
        | zero => rfl
        | succ j =>
          have hj : firstMatchIdx p xs ≠ some j := by
            intro hj
            exact hi (by simp [hj])
          exact ihne j hj
      · intro i hi
        simp only [firstMatchIdx, if_neg hp] at hi
        cases i with
        | zero =>
          exfalso
          cases hx : firstMatchIdx p xs with
          | none => rw [hx] at hi; simp at hi
          | some k => rw [hx] at hi; simp at hi
        | succ j =>
          have hj : firstMatchIdx p xs = some j := by
            cases hx : firstMatchIdx p xs with
            | none => rw [hx] at hi; simp at hi
            | some k =>
              rw [hx] at hi
              simp at hi
              simp [hi]
          simp only [replaceFirstLine, if_neg hp]
          exact iheq j hj

theorem update_lines (p : List Char → Bool) (nl : List Char)
    (content : List Char) (hnl : '\n' ∉ nl) :
    splitOnChar '\n'
        (joinWith '\n' (replaceFirstLine p nl (splitOnChar '\n' content)))
      = replaceFirstLine p nl (splitOnChar '\n' content) := by
  apply splitOnChar_join
  · exact replaceFirstLine_ne_nil p nl _ (splitOnChar_ne_nil '\n' content)
  · intro l hl
    rcases replaceFirstLine_mem p nl _ l hl with he | hm
    · exact he ▸ hnl
    · exact splitOnChar_mem_no_sep '\n' content l hm

theorem versionLinePy_no_newline (v : String) (hv : '\n' ∉ v.data) :
    '\n' ∉ versionLinePy v := by
  simp only [versionLinePy, List.mem_append]
  rintro ((h | h) | h)
  · revert h; decide
  · exact hv h
  · revert h; decide

theorem initLinePy_no_newline (v : String) (hv : '\n' ∉ v.data) :
    '\n' ∉ initLinePy v := by
  simp only [initLinePy, List.mem_append]
  rintro ((h | h) | h)
  · revert h; decide
  · exact hv h
  · revert h; decide

/-! ### Claim C9 -/

/-- C9: update_version_in_files rewrites only the first line of
pyproject.toml starting with version and only the first line of the
package init starting with __version__; every other line of both files is
left byte for byte unchanged (for version strings without a newline). -/
theorem C9_update_version_frame (v content : String) (hv : '\n' ∉ v.data) :
    FrameOnLines (fun l => List.isPrefixOf "version".data l) (versionLinePy v)
      (splitOnChar '\n' content.data)
      (splitOnChar '\n' (update_pyproject v content).data)
    ∧ FrameOnLines (fun l => List.isPrefixOf "__version__".data l) (initLinePy v)
      (splitOnChar '\n' content.data)
      (splitOnChar '\n' (update_init v content).data) := by
  constructor
  · show FrameOnLines _ _ _
      (splitOnChar '\n' (joinWith '\n' (replaceFirstLine _ _ _)))
    rw [update_lines _ _ _ (versionLinePy_no_newline v hv)]
    exact frame_replaceFirstLine _ _ _
  · show FrameOnLines _ _ _
      (splitOnChar '\n' (joinWith '\n' (replaceFirstLine _ _ _)))
    rw [update_lines _ _ _ (initLinePy_no_newline v hv)]
    exact frame_replaceFirstLine _ _ _

/-- Witness for C9 at a concrete input. -/
theorem C9_update_version_frame_witness :
    ('\n' ∉ ("1.0.1" : String).data)
    ∧ (FrameOnLines (fun l => List.isPrefixOf "version".data l)
        (versionLinePy "1.0.1")
        (splitOnChar '\n' ("[project]\nversion = \"1.0.0\"\nname = \"x\"" : String).data)
        (splitOnChar '\n' (update_pyproject "1.0.1" "[project]\nversion = \"1.0.0\"\nname = \"x\"").data)
      ∧ FrameOnLines (fun l => List.isPrefixOf "__version__".data l)
        (initLinePy "1.0.1")
        (splitOnChar '\n' ("[project]\nversion = \"1.0.0\"\nname = \"x\"" : String).data)
        (splitOnChar '\n' (update_init "1.0.1" "[project]\nversion = \"1.0.0\"\nname = \"x\"").data)) :=
  ⟨by decide,
    C9_update_version_frame "1.0.1" "[project]\nversion = \"1.0.0\"\nname = \"x\"" (by decide)⟩

/-! ## Build script: dependency pinning substitution

Translated from src/build_and_publish.py, function update_dependent_projects
(lines 106 to 112): re.sub replaces every leftmost non-overlapping match of
the pattern inter-service-sdk== followed by a nonempty greedy run of digits
and dots by inter-service-sdk== followed by the new version.  subSdk is the
left-to-right scanner implementing exactly this leftmost greedy semantics;
update_requirements is the content transformation applied to each
requirements.txt. -/

def sdkPat : List Char := "inter-service-sdk==".data

def isVerChar (c : Char) : Bool := c.isDigit || c = '.'

def matchAt (cs : List Char) : Bool :=
  sdkPat.isPrefixOf cs && !((cs.drop sdkPat.length).takeWhile isVerChar).isEmpty

theorem length_dropWhile_le (p : Char → Bool) (l : List Char) :
    (l.dropWhile p).length ≤ l.length := by
  induction l with
  | nil => simp
  | cons c cs ih =>
    rw [List.dropWhile_cons]
    by_cases h : p c
    · rw [if_pos h]
      simp only [List.length_cons]
      omega
    · rw [if_neg h]

def subSdk (V : List Char) : List Char → List Char
  | [] => []
  | c :: cs =>
    if matchAt (c :: cs) then
      sdkPat ++ V ++ subSdk V (((c :: cs).drop sdkPat.length).dropWhile isVerChar)
    else c :: subSdk V cs
termination_by cs => cs.length
decreasing_by
  · have h1 := length_dropWhile_le isVerChar ((c :: cs).drop 19)
    rw [List.length_drop] at h1
    have h2 : sdkPat.length = 19 := rfl
    simp only [h2, List.length_cons] at h1 ⊢
    omega
  · simp only [List.length_cons]
    omega

-- unfold lemmas
theorem subSdk_nil (V : List Char) : subSdk V [] = [] := by
  rw [subSdk]

theorem subSdk_cons_match (V : List Char) (c : Char) (cs : List Char)
    (h : matchAt (c :: cs) = true) :
    subSdk V (c :: cs)
      = sdkPat ++ V ++ subSdk V (((c :: cs).drop sdkPat.length).dropWhile isVerChar) := by
  rw [subSdk, if_pos h]

theorem subSdk_cons_nomatch (V : List Char) (c : Char) (cs : List Char)
    (h : matchAt (c :: cs) = false) :
    subSdk V (c :: cs) = c :: subSdk V cs := by
  rw [subSdk, if_neg (by simp [h])]

def sdkPatTail : List Char := "nter-service-sdk==".data

theorem sdkPat_cons : sdkPat = 'i' :: sdkPatTail := rfl

def headVerC : List Char → Bool
  | [] => false
  | c :: _ => isVerChar c

theorem isPrefixOf_cons_eq (a b : Char) (l1 l2 : List Char) :
    (a :: l1).isPrefixOf (b :: l2) = ((a == b) && l1.isPrefixOf l2) := rfl

theorem nil_isPrefixOf (l : List Char) : ([] : List Char).isPrefixOf l = true := by
  cases l <;> rfl

theorem isPrefixOf_append_self (l x : List Char) :
    l.isPrefixOf (l ++ x) = true := by
  induction l with
  | nil => exact nil_isPrefixOf _
  | cons c l ih => simp [isPrefixOf_cons_eq, ih]

theorem drop_pat_append (x : List Char) :
    (sdkPat ++ x).drop sdkPat.length = x := by
  simp [List.drop_left]

theorem takeWhile_append_all (V T : List Char) (hV : V.all isVerChar = true) :
    (V ++ T).takeWhile isVerChar = V ++ T.takeWhile isVerChar := by
  induction V with
  | nil => rfl
  | cons v V ih =>
    simp only [List.all_cons, Bool.and_eq_true] at hV
    simp [List.takeWhile_cons, hV.1, ih hV.2]

theorem dropWhile_append_all (V T : List Char) (hV : V.all isVerChar = true) :
    (V ++ T).dropWhile isVerChar = T.dropWhile isVerChar := by
  induction V with
  | nil => rfl
  | cons v V ih =>
    simp only [List.all_cons, Bool.and_eq_true] at hV
    simp [List.dropWhile_cons, hV.1, ih hV.2]

theorem takeWhile_eq_nil_of_head (T : List Char) (h : headVerC T = false) :
    T.takeWhile isVerChar = [] := by
  cases T with
  | nil => rfl
  | cons c T =>
    simp only [headVerC] at h
    simp [List.takeWhile_cons, h]

theorem dropWhile_eq_self_of_head (T : List Char) (h : headVerC T = false) :
    T.dropWhile isVerChar = T := by
  cases T with
  | nil => rfl
  | cons c T =>
    simp only [headVerC] at h
    simp [List.dropWhile_cons, h]

theorem headVerC_of_takeWhile_nil (T : List Char)
    (h : T.takeWhile isVerChar = []) : headVerC T = false := by
  cases T with
  | nil => rfl
  | cons c T =>
    rw [List.takeWhile_cons] at h
    by_cases hc : isVerChar c
    · rw [if_pos hc] at h; simp at h
    · simp [headVerC]
      exact Bool.of_not_eq_true hc

theorem headVerC_dropWhile (u : List Char) :
    headVerC (u.dropWhile isVerChar) = false := by
  induction u with
  | nil => rfl
  | cons c u ih =>
    rw [List.dropWhile_cons]
    by_cases h : isVerChar c
    · rw [if_pos h]; exact ih
    · rw [if_neg h]
      simp [headVerC]
      exact Bool.of_not_eq_true h

theorem headVerC_subSdk (V : List Char) (u : List Char)
    (h : headVerC (subSdk V u) = true) : headVerC u = true := by
  cases u with
  | nil => rw [subSdk_nil] at h; exact absurd h (by decide)
  | cons d u' =>
    by_cases hm : matchAt (d :: u') = true
    · rw [subSdk_cons_match V d u' hm] at h
      have hz : headVerC (sdkPat ++ V
          ++ subSdk V (((d :: u').drop sdkPat.length).dropWhile isVerChar))
          = false := rfl
      rw [hz] at h
      cases h
    · rw [subSdk_cons_nomatch V d u' (by simpa using hm)] at h
      exact h

theorem matchAt_block (V T : List Char) (hV : V.all isVerChar = true)
    (hVne : V ≠ []) (hT : headVerC T = false) :
    matchAt (sdkPat ++ V ++ T) = true := by
  unfold matchAt
  rw [List.append_assoc, isPrefixOf_append_self, drop_pat_append,
    takeWhile_append_all V T hV, takeWhile_eq_nil_of_head T hT]
  simp [hVne]

theorem matchAt_block_empty (T : List Char) (hT : headVerC T = false) :
    matchAt (sdkPat ++ T) = false := by
  unfold matchAt
  rw [isPrefixOf_append_self, drop_pat_append,
    takeWhile_eq_nil_of_head T hT]
  simp

def SafeChain : List Char → Prop
  | [] => True
  | c :: s => (∀ t, matchAt (c :: (s ++ t)) = false) ∧ SafeChain s

theorem scan_gen (V : List Char) :
    ∀ s, SafeChain s → ∀ t, subSdk V (s ++ t) = s ++ subSdk V t := by
  intro s
  induction s with
  | nil => intro _ t; rfl
  | cons c s ih =>
    intro hs t
    obtain ⟨h1, h2⟩ := hs
    rw [List.cons_append, subSdk_cons_nomatch V c (s ++ t) (h1 t),
      ih h2 t]
    rfl

theorem safeChain_tail : SafeChain sdkPatTail :=
  ⟨fun _ => rfl, fun _ => rfl, fun _ => rfl, fun _ => rfl, fun _ => rfl,
    fun _ => rfl, fun _ => rfl, fun _ => rfl, fun _ => rfl, fun _ => rfl,
    fun _ => rfl, fun _ => rfl, fun _ => rfl, fun _ => rfl, fun _ => rfl,
    fun _ => rfl, fun _ => rfl, fun _ => rfl, trivial⟩

def PreChain : List Char → Prop
  | [] => True
  | c :: s => (∀ X, (c :: s).isPrefixOf (sdkPat ++ X) = false) ∧ PreChain s

theorem pre_gen (V : List Char) :
    ∀ u s, PreChain s → s.isPrefixOf (subSdk V u) = true →
      s.isPrefixOf u = true := by
  intro u
  induction u with
  | nil =>
    intro s _ h
    rw [subSdk_nil] at h
    cases s with
    | nil => exact nil_isPrefixOf _
    | cons c s => simp [List.isPrefixOf] at h
  | cons d u' ih =>
    intro s hpre h
    by_cases hm : matchAt (d :: u') = true
    · cases s with
      | nil => exact nil_isPrefixOf _
      | cons c s' =>
        rw [subSdk_cons_match V d u' hm, List.append_assoc] at h
        rw [hpre.1 _] at h
        cases h
    · cases s with
      | nil => exact nil_isPrefixOf _
      | cons c s' =>
        rw [subSdk_cons_nomatch V d u' (by simpa using hm)] at h
        rw [isPrefixOf_cons_eq] at h
        rw [Bool.and_eq_true] at h
        rw [isPrefixOf_cons_eq, Bool.and_eq_true]
        exact ⟨h.1, ih s' hpre.2 h.2⟩

theorem preChain_tail : PreChain sdkPatTail :=
  ⟨fun _ => rfl, fun _ => rfl, fun _ => rfl, fun _ => rfl, fun _ => rfl,
    fun _ => rfl, fun _ => rfl, fun _ => rfl, fun _ => rfl, fun _ => rfl,
    fun _ => rfl, fun _ => rfl, fun _ => rfl, fun _ => rfl, fun _ => rfl,
    fun _ => rfl, fun _ => rfl, fun _ => rfl, trivial⟩

theorem subSdk_match_ne_nil (V : List Char) (cs : List Char) (hne : cs ≠ [])
    (h : matchAt cs = true) :
    subSdk V cs
      = sdkPat ++ V ++ subSdk V ((cs.drop sdkPat.length).dropWhile isVerChar) := by
  cases cs with
  | nil => exact absurd rfl hne
  | cons c cs' => exact subSdk_cons_match V c cs' h

theorem subSdk_pat_append (V X : List Char) (hhead : headVerC X = false) :
    subSdk V (sdkPat ++ X) = sdkPat ++ subSdk V X := by
  have hnm : matchAt (sdkPat ++ X) = false := matchAt_block_empty X hhead
  rw [sdkPat_cons, List.cons_append] at hnm ⊢
  rw [subSdk_cons_nomatch V 'i' (sdkPatTail ++ X) hnm]
  rw [scan_gen V sdkPatTail safeChain_tail X]
  rfl

theorem subSdk_block (V T : List Char) (hV : V.all isVerChar = true)
    (hVne : V ≠ []) (hT : headVerC T = false) :
    subSdk V (sdkPat ++ V ++ T) = sdkPat ++ V ++ subSdk V T := by
  have hmm := matchAt_block V T hV hVne hT
  rw [List.append_assoc] at hmm ⊢
  rw [subSdk_match_ne_nil V _ (by simp [sdkPat]) hmm]
  rw [drop_pat_append, dropWhile_append_all V T hV,
    dropWhile_eq_self_of_head T hT, List.append_assoc]

theorem subSdk_idem_aux (V : List Char) (hV : V.all isVerChar = true) :
    ∀ n cs, cs.length ≤ n → subSdk V (subSdk V cs) = subSdk V cs := by
  intro n
  induction n with
  | zero =>
    intro cs h
    have hnil : cs = [] := by
      cases cs with
      | nil => rfl
      | cons c cs => simp at h
    subst hnil
    rw [subSdk_nil, subSdk_nil]
  | succ n ih =>
    intro cs hlen
    cases cs with
    | nil => rw [subSdk_nil, subSdk_nil]
    | cons c cs' =>
      by_cases hm : matchAt (c :: cs') = true
      · rw [subSdk_cons_match V c cs' hm]
        have hrl : (((c :: cs').drop sdkPat.length).dropWhile isVerChar).length
            ≤ n := by
          have h1 := length_dropWhile_le isVerChar ((c :: cs').drop 19)
          rw [List.length_drop] at h1
          have h2 : sdkPat.length = 19 := rfl
          simp only [h2, List.length_cons] at h1 hlen ⊢
          omega
        have hT := ih _ hrl
        have hheadrest : headVerC
            (((c :: cs').drop sdkPat.length).dropWhile isVerChar) = false :=
          headVerC_dropWhile _
        have hheadT : headVerC
            (subSdk V (((c :: cs').drop sdkPat.length).dropWhile isVerChar))
            = false := by
          cases hx : headVerC
              (subSdk V (((c :: cs').drop sdkPat.length).dropWhile isVerChar)) with
          | false => rfl
          | true =>
            rw [headVerC_subSdk V _ hx] at hheadrest
            cases hheadrest
        cases V with
        | nil =>
          simp only [List.append_nil]
          rw [subSdk_pat_append [] _ hheadT, hT]
        | cons v V' =>
          rw [subSdk_block (v :: V') _ hV (by simp) hheadT, hT]
      · have hm' : matchAt (c :: cs') = false := by simpa using hm
        rw [subSdk_cons_nomatch V c cs' hm']
        have hlen' : cs'.length ≤ n := by
          simp only [List.length_cons] at hlen
          omega
        have hT := ih cs' hlen'
        by_cases hp : sdkPat.isPrefixOf (c :: cs') = true
        · -- the pattern matched but the version run was empty
          have hrun : ((c :: cs').drop sdkPat.length).takeWhile isVerChar
              = [] := by
            unfold matchAt at hm'
            rw [hp, Bool.true_and, Bool.not_eq_false'] at hm'
            exact List.isEmpty_iff.mp hm'
          have hci : c = 'i' ∧ sdkPatTail.isPrefixOf cs' = true := by
            rw [sdkPat_cons, isPrefixOf_cons_eq, Bool.and_eq_true] at hp
            exact ⟨(beq_iff_eq.mp hp.1).symm, hp.2⟩
          obtain ⟨u, hu⟩ : ∃ u, sdkPatTail ++ u = cs' :=
            List.isPrefixOf_iff_prefix.mp hci.2
          obtain ⟨hc, -⟩ := hci
          subst hc
          subst hu
          have hrunu : u.takeWhile isVerChar = [] := by
            rw [show ('i' : Char) :: (sdkPatTail ++ u) = sdkPat ++ u from rfl,
              drop_pat_append] at hrun
            exact hrun
          have hheadu : headVerC u = false := headVerC_of_takeWhile_nil u hrunu
          have hheadsu : headVerC (subSdk V u) = false := by
            cases hx : headVerC (subSdk V u) with
            | false => rfl
            | true =>
              rw [headVerC_subSdk V u hx] at hheadu
              cases hheadu
          have hulen : u.length ≤ n := by
            simp only [List.length_append] at hlen'
            omega
          rw [scan_gen V sdkPatTail safeChain_tail u]
          rw [show ('i' : Char) :: (sdkPatTail ++ subSdk V u)
              = sdkPat ++ subSdk V u from rfl]
          rw [subSdk_pat_append V _ hheadsu, ih u hulen]
        · -- the pattern does not even start here
          have hpT : sdkPat.isPrefixOf (c :: subSdk V cs') = false := by
            cases hx : sdkPat.isPrefixOf (c :: subSdk V cs') with
            | false => rfl
            | true =>
              exfalso
              rw [sdkPat_cons, isPrefixOf_cons_eq, Bool.and_eq_true] at hx
              have h2 := pre_gen V cs' sdkPatTail preChain_tail hx.2
              apply hp
              rw [sdkPat_cons, isPrefixOf_cons_eq, Bool.and_eq_true]
              exact ⟨hx.1, h2⟩
          have hnm2 : matchAt (c :: subSdk V cs') = false := by
            unfold matchAt
            rw [hpT, Bool.false_and]
          rw [subSdk_cons_nomatch V c _ hnm2, hT]

theorem subSdk_idem (V : List Char) (hV : V.all isVerChar = true)
    (cs : List Char) : subSdk V (subSdk V cs) = subSdk V cs :=
  subSdk_idem_aux V hV cs.length cs (le_refl _)

def update_requirements (new_version content : String) : String :=
  String.mk (subSdk new_version.data content.data)

/-- C10: the dependency-pinning substitution of update_dependent_projects
is idempotent whenever the new version consists only of digits and dots:
applying the substitution twice to any text yields the same result as
applying it once. -/
theorem C10_substitution_idempotent (new_version content : String)
    (hvc : new_version.data.all isVerChar = true) :
    update_requirements new_version (update_requirements new_version content)
      = update_requirements new_version content := by
  show String.mk (subSdk new_version.data (subSdk new_version.data content.data))
      = String.mk (subSdk new_version.data content.data)
  rw [subSdk_idem new_version.data hvc content.data]

/-- Witness for C10 at a concrete input. -/
theorem C10_substitution_idempotent_witness :
    ("1.2.3".data.all isVerChar = true)
    ∧ update_requirements "1.2.3"
        (update_requirements "1.2.3" "pkg\ninter-service-sdk==0.9\nother")
      = update_requirements "1.2.3" "pkg\ninter-service-sdk==0.9\nother" :=
  ⟨by decide,
    C10_substitution_idempotent "1.2.3" "pkg\ninter-service-sdk==0.9\nother"
      (by decide)⟩


end InterServiceSdk
